import Mathlib

/-!
# Verification of `scripts/ripper.mjs`

A shallow embedding of the build orchestration script `scripts/ripper.mjs`.
JavaScript strings are modelled as `List Char`; the handful of JS string
primitives the script uses (`split`, `join`, `slice`, `indexOf`, first-character
`toUpperCase`, number-to-string interpolation) are modelled by executable Lean
functions below.  The filesystem and the release-feed fetch are external
collaborators and enter the model as explicit inputs.
-/

/-! ## JS string primitives -/

/-- ASCII model of upper-casing one character, as used by
`p[0].toUpperCase()` in the script (plugin directory names are ASCII). -/
def jsToUpper (c : Char) : Char :=
  if 97 ≤ c.toNat ∧ c.toNat ≤ 122 then Char.ofNat (c.toNat - 32) else c

/-- JS `String.prototype.split` with a single-character separator.
`"".split "." = [""]`, `".".split "." = ["", ""]`, etc. -/
def jsSplit (sep : Char) : List Char → List (List Char)
  | [] => [[]]
  | c :: rest =>
    match jsSplit sep rest with
    | [] => [[c]]
    | s :: ss => if c = sep then [] :: s :: ss else (c :: s) :: ss

/-- JS `Array.prototype.join` with a single-character separator. -/
def jsJoin (sep : Char) : List (List Char) → List Char
  | [] => []
  | [x] => x
  | x :: y :: rest => x ++ sep :: jsJoin sep (y :: rest)

/-- JS `String.prototype.slice(start)` with one argument:
a negative start counts from the end of the string, clamped at 0. -/
def jsSliceFrom (s : List Char) (start : Int) : List Char :=
  let len : Int := s.length
  let b : Int := if start < 0 then max (len + start) 0 else min start len
  s.drop b.toNat

/-- Helper for `jsIndexOf`: first position `≥ i` (counting positions already
consumed) at which `pat` occurs in `s`, or `-1`. -/
def jsIndexOfFrom (pat : List Char) : List Char → Nat → Int
  | s, i =>
    if List.isPrefixOf pat s then (i : Int)
    else
      match s with
      | [] => -1
      | _ :: t => jsIndexOfFrom pat t (i + 1)

/-- JS `String.prototype.indexOf`: index of the first occurrence of `pat`
in `s`, or `-1` when `pat` does not occur. -/
def jsIndexOf (s pat : List Char) : Int :=
  jsIndexOfFrom pat s 0

/-- Little-endian base-10 digit list of `n`, with explicit fuel so that the
definition is structural (the fuel is always taken `≥ n`). -/
def natDigitsRev : Nat → Nat → List Nat
  | 0, _ => []
  | fuel + 1, n => if n = 0 then [] else n % 10 :: natDigitsRev fuel (n / 10)

/-- JS number-to-string conversion for a nonnegative integer, as performed by
template-literal interpolation of the counter in the script. -/
def jsNumToStr (n : Nat) : List Char :=
  if n = 0 then ['0'] else ((natDigitsRev n n).map Nat.digitChar).reverse

/-
Note on `natDigitsRev`'s fuel: we call it as `natDigitsRev n n`; the first
argument only bounds the recursion depth.
-/

/-! ## The plugin-natives resolver (`globNativesPlugin.setup`, `onLoad` hook) -/

/-- A directory entry under one of the two plugin roots, together with the
results of the two `existsAsync` probes the script performs for it
(`join(dirPath, p, "native.ts")` and `join(dirPath, p, "native/index.ts")`). -/
structure PluginEntry where
  pname : List Char
  hasNativeTs : Bool
  hasNativeIndexTs : Bool
deriving DecidableEq

/-- One candidate plugin root: the result of `existsAsync(dirPath)` and, when
present, the `readdir` listing in enumeration order. -/
structure RootDir where
  present : Bool
  entries : List PluginEntry
deriving DecidableEq

/-- The filesystem state the `onLoad` hook observes: the two fixed roots
`src/plugins` and `src/userplugins`. -/
structure FSModel where
  plugins : RootDir
  userplugins : RootDir
deriving DecidableEq

/-- Model of `const namePartsWithoutTarget = nameParts.length === 1 ? nameParts : nameParts.slice(0, -1);`
where `nameParts = p.split(".")`. -/
def namePartsWithoutTarget (p : List Char) : List (List Char) :=
  let nameParts := jsSplit '.' p
  if nameParts.length = 1 then nameParts else nameParts.dropLast

/-- Model of `const cleanPluginName = p[0].toUpperCase() + namePartsWithoutTarget.join(".").slice(1);`
On the empty name the script would throw (`p[0]` is `undefined`); `readdir`
never returns an empty entry name, and we return `[]` in that unreachable case. -/
def cleanPluginName (p : List Char) : List Char :=
  match p with
  | [] => []
  | c :: _ => jsToUpper c :: (jsJoin '.' (namePartsWithoutTarget p)).drop 1

/-- One discovered native module: root directory name (`plugins` or
`userplugins`), plugin directory name `p`, derived display name, and the value
of the counter `i` at the moment of discovery. -/
structure NativeRecord where
  dir : List Char
  pname : List Char
  clean : List Char
  idx : Nat
deriving DecidableEq

/-- The inner `for (const p of plugins)` loop of the `onLoad` hook, threading
the counter `i`.  A plugin providing neither candidate native entry file is
skipped without touching the counter.  `none` models the `TypeError` the
script would throw on an empty directory name (`p[0]` is `undefined`). -/
def scanPlugins (dir : List Char) : List PluginEntry → Nat → Option (List NativeRecord × Nat)
  | [], i => some ([], i)
  | e :: rest, i =>
    if e.hasNativeTs || e.hasNativeIndexTs then
      match e.pname with
      | [] => none
      | _ :: _ =>
        match scanPlugins dir rest (i + 1) with
        | none => none
        | some (rs, iEnd) => some (⟨dir, e.pname, cleanPluginName e.pname, i⟩ :: rs, iEnd)
    else scanPlugins dir rest i

/-- One iteration of the outer `for (const dir of pluginDirs)` loop:
`if (!await existsAsync(dirPath)) continue;` then the inner loop. -/
def scanRoot (dir : List Char) (root : RootDir) (i : Nat) : Option (List NativeRecord × Nat) :=
  if root.present then scanPlugins dir root.entries i else some ([], i)

/-- The whole discovery pass of the `onLoad` hook over
`pluginDirs = ["plugins", "userplugins"]`, returning the records in
discovery order and the final counter value. -/
def scanAll (fs : FSModel) : Option (List NativeRecord × Nat) :=
  match scanRoot ("plugins".data) fs.plugins 0 with
  | none => none
  | some (r1, i1) =>
    match scanRoot ("userplugins".data) fs.userplugins i1 with
    | none => none
    | some (r2, i2) => some (r1 ++ r2, i2)

/-- The synthetic import alias `` `p${i}` ``. -/
def aliasName (i : Nat) : List Char := 'p' :: jsNumToStr i

/-- The module path `./${dir}/${p}/native` used in the generated import. -/
def importPath (r : NativeRecord) : List Char :=
  ("./".data) ++ r.dir ++ ("/".data) ++ r.pname ++ ("/native".data)

/-- Escaping of one character as in `JSON.stringify` (quote and backslash; the
control-character escapes, irrelevant to directory names, are not modelled). -/
def jsonEscapeChar (c : Char) : List Char :=
  if c = '"' then ['\\', '"'] else if c = '\\' then ['\\', '\\'] else [c]

/-- Model of `JSON.stringify` applied to a string value. -/
def jsonStringify (s : List Char) : List Char :=
  '"' :: (s.map jsonEscapeChar).flatten ++ ['"']

/-- Model of `` code += `import * as ${mod} from "./${dir}/${p}/native";\n`; `` -/
def importLine (r : NativeRecord) : List Char :=
  ("import * as ".data) ++ aliasName r.idx ++ (" from \"".data) ++ importPath r ++ ("\";\n".data)

/-- Model of `` natives += `${JSON.stringify(cleanPluginName)}:${mod},\n`; `` -/
def nativesEntry (r : NativeRecord) : List Char :=
  jsonStringify r.clean ++ ':' :: aliasName r.idx ++ (",\n".data)

/-- The source text the hook returns:
all import lines, then `` `export default {${natives}};` `` where `natives`
starts with the initial `"\n"`. -/
def generatedCode (rs : List NativeRecord) : List Char :=
  (rs.map importLine).flatten ++ ("export default \x7b".data) ++
    '\n' :: (rs.map nativesEntry).flatten ++ ("\x7d;".data)

/-- The key/value entries of the generated `export default { ... }` object
literal, in generation order: each display name is bound to the namespace the
alias `pᵢ` imports, identified here by its module path. -/
def exportEntries (rs : List NativeRecord) : List (List Char × List Char) :=
  rs.map fun r => (r.clean, importPath r)

/-- Insertion of one key/value pair into a JS object under construction:
an existing key keeps its position but its value is overwritten, a new key is
appended at the end. -/
def insertKV {K V : Type} [DecidableEq K] : List (K × V) → K → V → List (K × V)
  | [], k, v => [(k, v)]
  | (k', v') :: rest, k, v =>
    if k' = k then (k, v) :: rest else (k', v') :: insertKV rest k v

/-- Evaluation of a JS object literal from its textual entry list:
entries are inserted left to right, so a duplicated key ends up bound to the
value of its last occurrence. -/
def jsObject {K V : Type} [DecidableEq K] (l : List (K × V)) : List (K × V) :=
  l.foldl (fun acc kv => insertKV acc kv.1 kv.2) []

/-- Property lookup on the evaluated object. -/
def lookupKV {K V : Type} [DecidableEq K] : List (K × V) → K → Option V
  | [], _ => none
  | (k', v') :: rest, k => if k' = k then some v' else lookupKV rest k

/-! ## The build orchestrator and the post-processing step -/

/-- Outcome of one `esbuild.build` invocation. -/
inductive BuildOutcome
  | ok
  | failed
deriving DecidableEq, BEq

/-- One element of the JSON array the release feed returns: an object whose
`name` field may be absent (`none`). -/
structure Release where
  name : Option (List Char)
deriving DecidableEq

/-- Outcome of `fetch(...).then(x => x.json())`: a network error rejects the
promise; otherwise the parsed JSON array is available. -/
inductive FetchOutcome
  | netError
  | ok (releases : List Release)
deriving DecidableEq

/-- Everything the script observes from its environment in one run:
the settled outcomes of the six build tasks (in source order), the watch-mode
flag from `./build/common.mjs`, the release-feed fetch outcome, and the
contents of `dist/renderer.js` (`none` when the file is missing). -/
structure ScriptInput where
  builds : List BuildOutcome
  watch : Bool
  fetch : FetchOutcome
  renderer : Option (List Char)
deriving DecidableEq

/-- Model of `const LATEST_HASH = await fetch(...).then(x => x.json()).then(x => x[0]?.name.slice(9));`
`Except.error ()` models a rejected promise: the fetch itself rejecting, or
`x[0]?.name.slice(9)` throwing because `x[0]` exists but has no `name`.
An empty array makes `x[0]?.` short-circuit the whole chain to `undefined`,
modelled by `Except.ok none`. -/
def latestHash : FetchOutcome → Except Unit (Option (List Char))
  | .netError => .error ()
  | .ok [] => .ok none
  | .ok (r :: _) =>
    match r.name with
    | none => .error ()
    | some s => .ok (some (jsSliceFrom s 9))

/-- Rendering of `LATEST_HASH` inside the template literal
`` `// PAYLOAD\n// Vencord ${LATEST_HASH}\n` ``: JS interpolates the value
`undefined` as the text `undefined`. -/
def showJsValue : Option (List Char) → List Char
  | none => ("undefined".data)
  | some s => s

/-- The two banner lines the post-processing step prepends. -/
def bannerOf (h : Option (List Char)) : List Char :=
  ("// PAYLOAD\n// Vencord ".data) ++ showJsValue h ++ ("\n".data)

/-- The marker string `"// Standalone:"` searched for in the artifact. -/
def markerStr : List Char := ("// Standalone:".data)

/-- Observable result of one run of the script. -/
structure ScriptResult where
  exitCode : Nat
  rendererAfter : Option (List Char)
  warned : Bool
  crashed : Bool
deriving DecidableEq

/-- The script from `await Promise.all([...]).catch(...)` to the end:

* the `catch` handler sets `process.exitCode = 1` when some build task failed
  and `commonOpts.watch` is off;
* `LATEST_HASH` is awaited at top level, **outside** the `try`/`catch`: a
  rejection there fails module evaluation, so the process crashes with exit
  status 1 before touching the artifact (`crashed = true`);
* the `try` block rereads `dist/renderer.js` and rewrites it to the banner
  plus `contents.slice(contents.indexOf("// Standalone:"))`; a missing file
  makes `readFileSync` throw, which the `catch` downgrades to a
  `console.warn` (`warned = true`). -/
def runScript (inp : ScriptInput) : ScriptResult :=
  let buildFailed := inp.builds.any (· == .failed)
  let exitCode := if buildFailed && !inp.watch then 1 else 0
  match latestHash inp.fetch with
  | .error _ => ⟨1, inp.renderer, false, true⟩
  | .ok h =>
    match inp.renderer with
    | none => ⟨exitCode, none, true, false⟩
    | some contents =>
      ⟨exitCode,
       some (bannerOf h ++ jsSliceFrom contents (jsIndexOf contents markerStr)),
       false, false⟩

/-! ## Properties of the string primitives -/

theorem char_toNat_ofNat_of_valid {n : Nat} (h : n.isValidChar) : (Char.ofNat n).toNat = n := by
  simp only [Char.ofNat, dif_pos h, Char.ofNatAux, Char.toNat, UInt32.toNat, BitVec.toNat_ofNatLt]

theorem jsToUpper_toNat (c : Char) (h : 97 ≤ c.toNat ∧ c.toNat ≤ 122) :
    (jsToUpper c).toNat = c.toNat - 32 := by
  unfold jsToUpper
  rw [if_pos h]
  exact char_toNat_ofNat_of_valid (Or.inl (by omega))

theorem jsToUpper_of_not_lower (c : Char) (h : ¬(97 ≤ c.toNat ∧ c.toNat ≤ 122)) :
    jsToUpper c = c := by
  unfold jsToUpper
  rw [if_neg h]

theorem jsToUpper_idem (c : Char) : jsToUpper (jsToUpper c) = jsToUpper c := by
  by_cases h : 97 ≤ c.toNat ∧ c.toNat ≤ 122
  · have ht := jsToUpper_toNat c h
    exact jsToUpper_of_not_lower _ (by omega)
  · simp [jsToUpper_of_not_lower c h]

theorem jsToUpper_ne_dot (c : Char) (h : c ≠ '.') : jsToUpper c ≠ '.' := by
  by_cases hl : 97 ≤ c.toNat ∧ c.toNat ≤ 122
  · intro heq
    have ht := jsToUpper_toNat c hl
    rw [heq] at ht
    have : ('.' : Char).toNat = 46 := by decide
    omega
  · rw [jsToUpper_of_not_lower c hl]
    exact h

theorem jsSplit_cons_eq (sep c : Char) (rest : List Char) (s : List Char)
    (ss : List (List Char)) (hss : jsSplit sep rest = s :: ss) :
    jsSplit sep (c :: rest) = if c = sep then [] :: s :: ss else (c :: s) :: ss := by
  unfold jsSplit
  rw [hss]

theorem jsSplit_ne_nil (sep : Char) (l : List Char) : jsSplit sep l ≠ [] := by
  induction l with
  | nil => simp [jsSplit]
  | cons c rest ih =>
    obtain ⟨s, ss, hss⟩ := List.exists_cons_of_ne_nil ih
    rw [jsSplit_cons_eq sep c rest s ss hss]
    by_cases h : c = sep <;> simp [h]

theorem jsJoin_jsSplit (sep : Char) (l : List Char) : jsJoin sep (jsSplit sep l) = l := by
  induction l with
  | nil => rfl
  | cons c rest ih =>
    obtain ⟨s, ss, hss⟩ := List.exists_cons_of_ne_nil (jsSplit_ne_nil sep rest)
    rw [hss] at ih
    rw [jsSplit_cons_eq sep c rest s ss hss]
    by_cases h : c = sep
    · subst h
      simpa [jsJoin] using ih
    · rw [if_neg h]
      cases ss with
      | nil => simpa [jsJoin] using ih
      | cons s2 ss2 => simpa [jsJoin] using ih

theorem jsSplit_length_one_iff (sep : Char) (l : List Char) :
    (jsSplit sep l).length = 1 ↔ sep ∉ l := by
  induction l with
  | nil => simp [jsSplit]
  | cons c rest ih =>
    obtain ⟨s, ss, hss⟩ := List.exists_cons_of_ne_nil (jsSplit_ne_nil sep rest)
    rw [hss] at ih
    rw [jsSplit_cons_eq sep c rest s ss hss]
    by_cases h : c = sep
    · subst h
      simp
    · rw [if_neg h]
      simp only [List.length_cons, List.mem_cons] at ih ⊢
      constructor
      · intro h1 hmem
        rcases hmem with hceq | hmem
        · exact h hceq.symm
        · exact (ih.mp h1) hmem
      · intro hmem
        exact ih.mpr fun hm => hmem (Or.inr hm)

theorem jsSplit_eq_singleton_of_length_one (sep : Char) (l : List Char)
    (h : (jsSplit sep l).length = 1) : jsSplit sep l = [l] := by
  obtain ⟨s, ss, hss⟩ := List.exists_cons_of_ne_nil (jsSplit_ne_nil sep l)
  have hlen : ss = [] := by
    rw [hss] at h
    simpa using h
  subst hlen
  have hj := jsJoin_jsSplit sep l
  rw [hss] at hj
  rw [hss]
  simpa [jsJoin] using congrArg (fun x => [x]) hj

theorem jsJoin_append_singleton (sep : Char) :
    ∀ (xs : List (List Char)) (y : List Char), xs ≠ [] →
      jsJoin sep (xs ++ [y]) = jsJoin sep xs ++ sep :: y
  | [], _, h => absurd rfl h
  | [x], y, _ => by simp [jsJoin]
  | x1 :: x2 :: xs, y, _ => by
    have ih := jsJoin_append_singleton sep (x2 :: xs) y (by simp)
    show x1 ++ sep :: jsJoin sep ((x2 :: xs) ++ [y]) = (x1 ++ sep :: jsJoin sep (x2 :: xs)) ++ sep :: y
    rw [ih]
    simp [List.append_assoc]

/-- The string `namePartsWithoutTarget.join(".")` is an initial segment of the
original directory name. -/
theorem keptJoin_isPrefix (p : List Char) :
    ∃ t, p = jsJoin '.' (namePartsWithoutTarget p) ++ t := by
  unfold namePartsWithoutTarget
  by_cases h : (jsSplit '.' p).length = 1
  · simp only [h, if_pos]
    exact ⟨[], by simp [jsJoin_jsSplit]⟩
  · simp only [if_neg h]
    have hne := jsSplit_ne_nil '.' p
    have hpos : 0 < (jsSplit '.' p).length := List.length_pos.mpr hne
    have hlen : 2 ≤ (jsSplit '.' p).length := by omega
    have hdl : (jsSplit '.' p).dropLast ≠ [] := by
      intro hnil
      have hld := List.length_dropLast (jsSplit '.' p)
      rw [hnil] at hld
      simp only [List.length_nil] at hld
      omega
    refine ⟨'.' :: (jsSplit '.' p).getLast hne, ?_⟩
    conv_lhs => rw [← jsJoin_jsSplit '.' p, ← List.dropLast_append_getLast hne]
    exact jsJoin_append_singleton '.' _ _ hdl

/-! ## The display-name derivation rule as the specification words it -/

/-- Capitalization of the first character of a string (of the empty string:
nothing to capitalize). -/
def capitalizeFirst : List Char → List Char
  | [] => []
  | c :: r => jsToUpper c :: r

/-- The derivation rule in the specification's order of operations: split on
`"."`, drop the last segment when more than one exists, rejoin with `"."`,
then capitalize the first character of the result. -/
def specDeriveName (p : List Char) : List Char :=
  capitalizeFirst (jsJoin '.' (namePartsWithoutTarget p))

/-- C3, counterexample: on the directory name `".x"` the script capitalizes
the first character of the *original* name (yielding `"."`), while the rule as
claimed capitalizes the rejoined string, which is empty (yielding `""`). -/
theorem claim3_counterexample :
    cleanPluginName (".x".data) ≠ specDeriveName (".x".data) := by decide

/-- C3 (amended): for every non-empty plugin directory name `p` whose
rejoined string (after splitting on `"."` and dropping the last segment when
more than one exists) is non-empty, the derived display name equals the result
of splitting, dropping, rejoining and capitalizing the first character; in
particular `"foo.discordDesktop"` yields `"Foo"`. -/
theorem claim3 :
    (∀ p : List Char, p ≠ [] → jsJoin '.' (namePartsWithoutTarget p) ≠ [] →
      cleanPluginName p = specDeriveName p)
    ∧ cleanPluginName ("foo.discordDesktop".data) = ("Foo".data) := by
  constructor
  · intro p hp hkj
    obtain ⟨c, rest, rfl⟩ := List.exists_cons_of_ne_nil hp
    obtain ⟨t, ht⟩ := keptJoin_isPrefix (c :: rest)
    obtain ⟨k0, ks, hk⟩ := List.exists_cons_of_ne_nil hkj
    rw [hk] at ht
    have hc : c = k0 := by
      simpa using congrArg (fun l => l.head?) ht
    subst hc
    simp [cleanPluginName, specDeriveName, capitalizeFirst, hk]
  · decide

/-- Witness for C3 at `p = "foo.discordDesktop"`. -/
theorem claim3_witness :
    cleanPluginName ("foo.discordDesktop".data) = specDeriveName ("foo.discordDesktop".data) :=
  claim3.1 ("foo.discordDesktop".data) (by decide) (by decide)

/-- On a single-segment name the derivation only upper-cases the head. -/
theorem cleanPluginName_of_single (c : Char) (cs : List Char)
    (h : (jsSplit '.' (c :: cs)).length = 1) :
    cleanPluginName (c :: cs) = jsToUpper c :: cs := by
  have hs := jsSplit_eq_singleton_of_length_one '.' (c :: cs) h
  simp [cleanPluginName, namePartsWithoutTarget, hs, jsJoin]

/-- C7: the display-name derivation is idempotent on single-segment names:
`"foo"` yields `"Foo"`, `"Foo"` yields `"Foo"` again, and for every non-empty
single-segment name `n`, deriving twice equals deriving once. -/
theorem claim7 :
    cleanPluginName ("foo".data) = ("Foo".data)
    ∧ cleanPluginName ("Foo".data) = ("Foo".data)
    ∧ ∀ n : List Char, n ≠ [] → (jsSplit '.' n).length = 1 →
        cleanPluginName (cleanPluginName n) = cleanPluginName n := by
  refine ⟨by decide, by decide, ?_⟩
  intro n hn h1
  obtain ⟨c, cs, rfl⟩ := List.exists_cons_of_ne_nil hn
  rw [cleanPluginName_of_single c cs h1]
  have hnot : '.' ∉ c :: cs := (jsSplit_length_one_iff '.' _).mp h1
  have hc : c ≠ '.' := by
    intro he
    exact hnot (by rw [he]; exact List.mem_cons_self '.' cs)
  have hnot2 : '.' ∉ jsToUpper c :: cs := by
    intro hm
    rcases List.mem_cons.mp hm with he | hm2
    · exact jsToUpper_ne_dot c hc he.symm
    · exact hnot (List.mem_cons_of_mem c hm2)
  have h2 : (jsSplit '.' (jsToUpper c :: cs)).length = 1 :=
    (jsSplit_length_one_iff '.' _).mpr hnot2
  rw [cleanPluginName_of_single (jsToUpper c) cs h2, jsToUpper_idem]

/-- Witness for C7 at `n = "bar"`. -/
theorem claim7_witness :
    cleanPluginName (cleanPluginName ("bar".data)) = cleanPluginName ("bar".data) :=
  claim7.2.2 ("bar".data) (by decide) (by decide)

/-! ## Claims about the discovery scan -/

/-- The plugin root of claim C4: listing `[a, b.discordDesktop, c]`, where
`a` provides `native.ts`, `b.discordDesktop` provides `native/index.ts`, and
`c` provides neither; the user-plugins root does not exist. -/
def fsC4 : FSModel :=
  ⟨⟨true, [⟨("a".data), true, false⟩,
           ⟨("b.discordDesktop".data), false, true⟩,
           ⟨("c".data), false, false⟩]⟩,
   ⟨false, []⟩⟩

/-- C4: for the root listing `[a, b.discordDesktop, c]` where exactly `a` and
`b.discordDesktop` provide a native entry module, the scan discovers exactly
those two plugins, and the synthesized export object has exactly the keys
`"A"` and `"B"`, each bound to the namespace imported from the corresponding
plugin's native module — and no entry derived from `c`. -/
theorem claim4 :
    scanAll fsC4 =
      some ([⟨("plugins".data), ("a".data), ("A".data), 0⟩,
             ⟨("plugins".data), ("b.discordDesktop".data), ("B".data), 1⟩], 2)
    ∧ (jsObject (exportEntries
        [⟨("plugins".data), ("a".data), ("A".data), 0⟩,
         ⟨("plugins".data), ("b.discordDesktop".data), ("B".data), 1⟩])).map Prod.fst
      = [("A".data), ("B".data)]
    ∧ lookupKV (jsObject (exportEntries
        [⟨("plugins".data), ("a".data), ("A".data), 0⟩,
         ⟨("plugins".data), ("b.discordDesktop".data), ("B".data), 1⟩])) ("A".data)
      = some ("./plugins/a/native".data)
    ∧ lookupKV (jsObject (exportEntries
        [⟨("plugins".data), ("a".data), ("A".data), 0⟩,
         ⟨("plugins".data), ("b.discordDesktop".data), ("B".data), 1⟩])) ("B".data)
      = some ("./plugins/b.discordDesktop/native".data) := by
  refine ⟨by decide, by decide, by decide, by decide⟩

/-- C6: a plugin root that does not exist contributes zero entries and raises
no error, and a plugin directory providing neither `native.ts` nor
`native/index.ts` is silently skipped, contributing no record (hence no import
line and no export entry) and leaving the counter untouched. -/
theorem claim6 :
    (∀ (d : List Char) (root : RootDir) (i : Nat), root.present = false →
      scanRoot d root i = some ([], i))
    ∧ (∀ (d : List Char) (e : PluginEntry) (rest : List PluginEntry) (i : Nat),
        e.hasNativeTs = false → e.hasNativeIndexTs = false →
        scanPlugins d (e :: rest) i = scanPlugins d rest i) := by
  constructor
  · intro d root i h
    unfold scanRoot
    rw [h]
    rfl
  · intro d e rest i h1 h2
    simp [scanPlugins, h1, h2]

/-- Witness for C6: an absent root with a listing, and a plugin `c` with no
native module in front of an arbitrary rest. -/
theorem claim6_witness :
    scanRoot ("plugins".data) ⟨false, [⟨("a".data), true, true⟩]⟩ 5 = some ([], 5)
    ∧ scanPlugins ("userplugins".data) [⟨("c".data), false, false⟩] 3
      = scanPlugins ("userplugins".data) [] 3 :=
  ⟨claim6.1 ("plugins".data) ⟨false, [⟨("a".data), true, true⟩]⟩ 5 rfl,
   claim6.2 ("userplugins".data) ⟨("c".data), false, false⟩ [] 3 rfl rfl⟩

/-! ## Injectivity of the synthetic import aliases -/

/-- Little-endian base-10 decoding, the inverse of `natDigitsRev`. -/
def natDigitsDecode : List Nat → Nat
  | [] => 0
  | d :: r => d + 10 * natDigitsDecode r

theorem natDigitsRev_decode : ∀ (fuel n : Nat), n ≤ fuel →
    natDigitsDecode (natDigitsRev fuel n) = n := by
  intro fuel
  induction fuel with
  | zero =>
    intro n hn
    have : n = 0 := by omega
    subst this
    rfl
  | succ fuel ih =>
    intro n hn
    by_cases h0 : n = 0
    · subst h0
      simp [natDigitsRev, natDigitsDecode]
    · have hdiv : n / 10 < n := Nat.div_lt_self (by omega) (by omega)
      have hle : n / 10 ≤ fuel := by omega
      simp only [natDigitsRev, if_neg h0, natDigitsDecode, ih (n / 10) hle]
      omega

theorem natDigitsRev_lt_ten : ∀ (fuel n d : Nat), d ∈ natDigitsRev fuel n → d < 10 := by
  intro fuel
  induction fuel with
  | zero =>
    intro n d h
    simp [natDigitsRev] at h
  | succ fuel ih =>
    intro n d h
    by_cases h0 : n = 0
    · subst h0
      simp [natDigitsRev] at h
    · simp only [natDigitsRev, if_neg h0, List.mem_cons] at h
      rcases h with h | h
      · subst h
        exact Nat.mod_lt n (by omega)
      · exact ih (n / 10) d h

theorem digitChar_inj_lt : ∀ a < 10, ∀ b < 10, Nat.digitChar a = Nat.digitChar b → a = b := by
  decide

theorem map_digitChar_inj : ∀ (l1 l2 : List Nat),
    (∀ d ∈ l1, d < 10) → (∀ d ∈ l2, d < 10) →
    l1.map Nat.digitChar = l2.map Nat.digitChar → l1 = l2 := by
  intro l1
  induction l1 with
  | nil =>
    intro l2 _ _ h
    cases l2 with
    | nil => rfl
    | cons b bs => simp at h
  | cons a as ih =>
    intro l2 h1 h2 h
    cases l2 with
    | nil => simp at h
    | cons b bs =>
      simp only [List.map_cons, List.cons.injEq] at h
      have ha : a = b :=
        digitChar_inj_lt a (h1 a (List.mem_cons_self a as)) b
          (h2 b (List.mem_cons_self b bs)) h.1
      have hrest : as = bs :=
        ih bs (fun d hd => h1 d (List.mem_cons_of_mem a hd))
          (fun d hd => h2 d (List.mem_cons_of_mem b hd)) h.2
      rw [ha, hrest]

theorem jsNumToStr_inj : Function.Injective jsNumToStr := by
  intro m n h
  unfold jsNumToStr at h
  by_cases hm : m = 0 <;> by_cases hn : n = 0
  · omega
  · rw [if_pos hm, if_neg hn] at h
    have h' : (natDigitsRev n n).map Nat.digitChar = [Nat.digitChar 0] := by
      have := congrArg List.reverse h
      simpa using this.symm
    have : natDigitsRev n n = [0] :=
      map_digitChar_inj _ [0] (fun d hd => natDigitsRev_lt_ten n n d hd)
        (by simp) h'
    have hdec := natDigitsRev_decode n n (Nat.le_refl n)
    rw [this] at hdec
    simp [natDigitsDecode] at hdec
    omega
  · rw [if_neg hm, if_pos hn] at h
    have h' : (natDigitsRev m m).map Nat.digitChar = [Nat.digitChar 0] := by
      have := congrArg List.reverse h
      simpa using this
    have : natDigitsRev m m = [0] :=
      map_digitChar_inj _ [0] (fun d hd => natDigitsRev_lt_ten m m d hd)
        (by simp) h'
    have hdec := natDigitsRev_decode m m (Nat.le_refl m)
    rw [this] at hdec
    simp [natDigitsDecode] at hdec
    omega
  · rw [if_neg hm, if_neg hn] at h
    have h' : (natDigitsRev m m).map Nat.digitChar = (natDigitsRev n n).map Nat.digitChar := by
      have := congrArg List.reverse h
      simpa using this
    have heq : natDigitsRev m m = natDigitsRev n n :=
      map_digitChar_inj _ _ (fun d hd => natDigitsRev_lt_ten m m d hd)
        (fun d hd => natDigitsRev_lt_ten n n d hd) h'
    have hm' := natDigitsRev_decode m m (Nat.le_refl m)
    have hn' := natDigitsRev_decode n n (Nat.le_refl n)
    rw [heq] at hm'
    omega

theorem aliasName_inj : Function.Injective aliasName := by
  intro m n h
  unfold aliasName at h
  exact jsNumToStr_inj (List.cons.injEq .. |>.mp h).2

/-- The records produced by the inner loop carry consecutive counter values
starting at the incoming counter, and the loop returns the counter advanced by
one per discovery. -/
theorem scanPlugins_idx (d : List Char) :
    ∀ (es : List PluginEntry) (i : Nat) (rs : List NativeRecord) (iEnd : Nat),
      scanPlugins d es i = some (rs, iEnd) →
      rs.map (fun r => r.idx) = List.range' i rs.length ∧ iEnd = i + rs.length := by
  intro es
  induction es with
  | nil =>
    intro i rs iEnd h
    simp only [scanPlugins, Option.some.injEq, Prod.mk.injEq] at h
    obtain ⟨h1, h2⟩ := h
    subst h1
    subst h2
    simp
  | cons e rest ih =>
    intro i rs iEnd h
    by_cases hnat : (e.hasNativeTs || e.hasNativeIndexTs) = true
    · rw [show scanPlugins d (e :: rest) i =
          (if e.hasNativeTs || e.hasNativeIndexTs then
            match e.pname with
            | [] => none
            | _ :: _ =>
              match scanPlugins d rest (i + 1) with
              | none => none
              | some (rs, iEnd) =>
                some (⟨d, e.pname, cleanPluginName e.pname, i⟩ :: rs, iEnd)
          else scanPlugins d rest i) from rfl, if_pos hnat] at h
      cases hp : e.pname with
      | nil =>
        rw [hp] at h
        simp at h
      | cons c cs =>
        rw [hp] at h
        cases hrec : scanPlugins d rest (i + 1) with
        | none =>
          rw [hrec] at h
          simp at h
        | some pr =>
          obtain ⟨rs', i'⟩ := pr
          rw [hrec] at h
          simp only [Option.some.injEq, Prod.mk.injEq] at h
          obtain ⟨h1, h2⟩ := h
          obtain ⟨hmap, hend⟩ := ih (i + 1) rs' i' hrec
          subst h1
          subst h2
          constructor
          · simp only [List.map_cons, List.length_cons, hmap, List.range'_succ]
          · simp only [List.length_cons]
            omega
    · rw [show scanPlugins d (e :: rest) i =
          (if e.hasNativeTs || e.hasNativeIndexTs then
            match e.pname with
            | [] => none
            | _ :: _ =>
              match scanPlugins d rest (i + 1) with
              | none => none
              | some (rs, iEnd) =>
                some (⟨d, e.pname, cleanPluginName e.pname, i⟩ :: rs, iEnd)
          else scanPlugins d rest i) from rfl, if_neg hnat] at h
      exact ih i rs iEnd h

/-- Counter bookkeeping lifted to one whole root. -/
theorem scanRoot_idx (d : List Char) (root : RootDir) (i : Nat)
    (rs : List NativeRecord) (iEnd : Nat) (h : scanRoot d root i = some (rs, iEnd)) :
    rs.map (fun r => r.idx) = List.range' i rs.length ∧ iEnd = i + rs.length := by
  unfold scanRoot at h
  by_cases hp : root.present = true
  · rw [if_pos hp] at h
    exact scanPlugins_idx d root.entries i rs iEnd h
  · rw [if_neg hp] at h
    simp only [Option.some.injEq, Prod.mk.injEq] at h
    obtain ⟨h1, h2⟩ := h
    subst h1
    subst h2
    simp

/-- C8: in one load-hook invocation the counter values attached to the
discovered native modules across both roots are exactly `0, 1, 2, …` in
discovery order, so the generated local import binding names `p0, p1, …` are
pairwise distinct. -/
theorem claim8 : ∀ (fs : FSModel) (rs : List NativeRecord) (iEnd : Nat),
    scanAll fs = some (rs, iEnd) →
    rs.map (fun r => r.idx) = List.range rs.length
    ∧ (rs.map (fun r => aliasName r.idx)).Nodup := by
  intro fs rs iEnd h
  unfold scanAll at h
  cases h1 : scanRoot ("plugins".data) fs.plugins 0 with
  | none =>
    rw [h1] at h
    simp at h
  | some pr1 =>
    obtain ⟨r1, i1⟩ := pr1
    rw [h1] at h
    have h' : (match scanRoot ("userplugins".data) fs.userplugins i1 with
        | none => none
        | some (r2, i2) => some (r1 ++ r2, i2)) = some (rs, iEnd) := h
    cases h2 : scanRoot ("userplugins".data) fs.userplugins i1 with
    | none =>
      rw [h2] at h'
      simp at h'
    | some pr2 =>
      obtain ⟨r2, i2⟩ := pr2
      rw [h2] at h'
      simp only [Option.some.injEq, Prod.mk.injEq] at h'
      obtain ⟨hrs, hi⟩ := h'
      obtain ⟨hm1, he1⟩ := scanRoot_idx _ _ _ _ _ h1
      obtain ⟨hm2, he2⟩ := scanRoot_idx _ _ _ _ _ h2
      subst hrs
      have hidx : (r1 ++ r2).map (fun r => r.idx) = List.range (r1 ++ r2).length := by
        rw [List.map_append, hm1, hm2, he1, List.range'_append_1, List.range_eq_range',
          List.length_append, Nat.add_comm r2.length r1.length]
      refine ⟨hidx, ?_⟩
      have hcomp : (r1 ++ r2).map (fun r => aliasName r.idx)
          = ((r1 ++ r2).map (fun r => r.idx)).map aliasName := by
        rw [List.map_map]
        rfl
      rw [hcomp, hidx]
      exact (List.nodup_range _).map aliasName_inj

/-- Witness for C8: one discovery in each root. -/
theorem claim8_witness :
    ([⟨("plugins".data), ("a".data), ("A".data), 0⟩,
      ⟨("userplugins".data), ("b".data), ("B".data), 1⟩].map
        (fun r : NativeRecord => r.idx)) = List.range 2
    ∧ ([⟨("plugins".data), ("a".data), ("A".data), 0⟩,
        ⟨("userplugins".data), ("b".data), ("B".data), 1⟩].map
          (fun r : NativeRecord => aliasName r.idx)).Nodup := by
  have h := claim8
    ⟨⟨true, [⟨("a".data), true, false⟩]⟩, ⟨true, [⟨("b".data), true, false⟩]⟩⟩
    [⟨("plugins".data), ("a".data), ("A".data), 0⟩,
     ⟨("userplugins".data), ("b".data), ("B".data), 1⟩] 2 (by decide)
  simpa using h

/-! ## Last-wins semantics of the generated export object -/

theorem lookupKV_insertKV {K V : Type} [DecidableEq K] :
    ∀ (acc : List (K × V)) (k : K) (v : V) (q : K),
      lookupKV (insertKV acc k v) q = if q = k then some v else lookupKV acc q := by
  intro acc
  induction acc with
  | nil =>
    intro k v q
    simp [insertKV, lookupKV, eq_comm]
  | cons kv rest ih =>
    obtain ⟨a, b⟩ := kv
    intro k v q
    by_cases hak : a = k
    · subst hak
      simp only [insertKV, if_pos rfl]
      by_cases hq : q = a
      · subst hq
        simp [lookupKV]
      · have hq' : ¬(a = q) := fun hh => hq hh.symm
        simp [lookupKV, hq, hq']
    · simp only [insertKV, if_neg hak]
      by_cases haq : a = q
      · subst haq
        have hqk : ¬(a = k) := hak
        simp [lookupKV, hqk]
      · simp [lookupKV, haq, ih]

theorem keys_insertKV {K V : Type} [DecidableEq K] :
    ∀ (acc : List (K × V)) (k : K) (v : V),
      (insertKV acc k v).map Prod.fst =
        if k ∈ acc.map Prod.fst then acc.map Prod.fst else acc.map Prod.fst ++ [k] := by
  intro acc
  induction acc with
  | nil =>
    intro k v
    simp [insertKV]
  | cons kv rest ih =>
    obtain ⟨a, b⟩ := kv
    intro k v
    by_cases hak : a = k
    · subst hak
      simp [insertKV]
    · simp only [insertKV, if_neg hak, List.map_cons, ih k v, List.mem_cons]
      by_cases hm : k ∈ rest.map Prod.fst
      · rw [if_pos hm, if_pos (Or.inr hm)]
      · rw [if_neg hm, if_neg ?_]
        · simp
        · intro hor
          rcases hor with he | hm2
          · exact hak he.symm
          · exact hm hm2

theorem nodup_keys_insertKV {K V : Type} [DecidableEq K]
    (acc : List (K × V)) (k : K) (v : V) (h : (acc.map Prod.fst).Nodup) :
    ((insertKV acc k v).map Prod.fst).Nodup := by
  rw [keys_insertKV]
  by_cases hm : k ∈ acc.map Prod.fst
  · rw [if_pos hm]
    exact h
  · rw [if_neg hm]
    refine List.Nodup.append h (List.nodup_singleton k) ?_
    intro a ha hb
    simp only [List.mem_singleton] at hb
    subst hb
    exact hm ha

theorem mem_keys_insertKV {K V : Type} [DecidableEq K]
    (acc : List (K × V)) (k : K) (v : V) (q : K) :
    q ∈ (insertKV acc k v).map Prod.fst ↔ q ∈ acc.map Prod.fst ∨ q = k := by
  rw [keys_insertKV]
  by_cases hm : k ∈ acc.map Prod.fst
  · rw [if_pos hm]
    constructor
    · exact Or.inl
    · intro hor
      rcases hor with h | h
      · exact h
      · subst h
        exact hm
  · rw [if_neg hm]
    simp

theorem nodup_keys_foldl_insert {K V : Type} [DecidableEq K] :
    ∀ (l acc : List (K × V)), (acc.map Prod.fst).Nodup →
      ((l.foldl (fun a kv => insertKV a kv.1 kv.2) acc).map Prod.fst).Nodup := by
  intro l
  induction l with
  | nil =>
    intro acc h
    exact h
  | cons kv rest ih =>
    intro acc h
    exact ih (insertKV acc kv.1 kv.2) (nodup_keys_insertKV acc kv.1 kv.2 h)

theorem mem_keys_foldl_insert {K V : Type} [DecidableEq K] :
    ∀ (l acc : List (K × V)) (q : K),
      q ∈ ((l.foldl (fun a kv => insertKV a kv.1 kv.2) acc).map Prod.fst) ↔
        q ∈ acc.map Prod.fst ∨ q ∈ l.map Prod.fst := by
  intro l
  induction l with
  | nil =>
    intro acc q
    simp
  | cons kv rest ih =>
    intro acc q
    rw [List.foldl_cons, ih (insertKV acc kv.1 kv.2) q, mem_keys_insertKV]
    simp only [List.map_cons, List.mem_cons]
    tauto

theorem getLast?_cons_of_ne_nil {α : Type} (x : α) (t : List α) (h : t ≠ []) :
    (x :: t).getLast? = t.getLast? := by
  cases t with
  | nil => exact absurd rfl h
  | cons y ys => simp

theorem lookupKV_foldl_insert {K V : Type} [DecidableEq K] :
    ∀ (l acc : List (K × V)) (q : K),
      lookupKV (l.foldl (fun a kv => insertKV a kv.1 kv.2) acc) q =
        match (l.filter (fun kv => decide (kv.1 = q))).getLast? with
        | some kv => some kv.2
        | none => lookupKV acc q := by
  intro l
  induction l with
  | nil =>
    intro acc q
    simp
  | cons kv rest ih =>
    obtain ⟨a, b⟩ := kv
    intro acc q
    rw [List.foldl_cons, ih (insertKV acc a b) q]
    cases hl : (rest.filter (fun kv => decide (kv.1 = q))).getLast? with
    | some kv2 =>
      have hne : rest.filter (fun kv => decide (kv.1 = q)) ≠ [] := by
        intro hnil
        rw [hnil] at hl
        simp at hl
      by_cases haq : a = q
      · rw [List.filter_cons_of_pos (by simpa using haq),
          getLast?_cons_of_ne_nil _ _ hne, hl]
      · rw [List.filter_cons_of_neg (by simpa using haq), hl]
    | none =>
      have hnil : rest.filter (fun kv => decide (kv.1 = q)) = [] := by
        simpa using hl
      rw [lookupKV_insertKV]
      by_cases haq : a = q
      · rw [List.filter_cons_of_pos (by simpa using haq), hnil, if_pos haq.symm]
        simp
      · rw [List.filter_cons_of_neg (by simpa using haq), hnil,
          if_neg (fun hh => haq hh.symm)]
        rfl

theorem lookupKV_jsObject {K V : Type} [DecidableEq K] (l : List (K × V)) (q : K) :
    lookupKV (jsObject l) q =
      ((l.filter (fun kv => decide (kv.1 = q))).getLast?).map Prod.snd := by
  unfold jsObject
  rw [lookupKV_foldl_insert]
  cases hl : (l.filter (fun kv => decide (kv.1 = q))).getLast? with
  | some kv => simp
  | none => simp [lookupKV]

theorem countP_eq_one_of_nodup_mem {K : Type} [DecidableEq K] :
    ∀ (ks : List K) (q : K), ks.Nodup → q ∈ ks →
      ks.countP (fun a => decide (a = q)) = 1 := by
  intro ks
  induction ks with
  | nil =>
    intro q _ hmem
    simp at hmem
  | cons a t ih =>
    intro q hnd hmem
    rw [List.nodup_cons] at hnd
    by_cases haq : a = q
    · subst haq
      rw [List.countP_cons_of_pos _ _ (by simp)]
      have ht : t.countP (fun x => decide (x = a)) = 0 := by
        rw [List.countP_eq_zero]
        intro b hb
        simp only [decide_eq_true_eq]
        intro hba
        subst hba
        exact hnd.1 hb
      omega
    · rcases List.mem_cons.mp hmem with he | hmem2
      · exact absurd he.symm haq
      · rw [List.countP_cons_of_neg _ _ (by simpa using haq)]
        exact ih q hnd.2 hmem2

/-- C5: whenever two discovered plugins derive to the same display name `X`,
the evaluated export object keeps exactly one entry for `X`, bound to the
native module (identified by its import path) of the plugin scanned last
among those deriving to `X`. -/
theorem claim5 : ∀ (fs : FSModel) (rs : List NativeRecord) (iEnd : Nat) (X : List Char),
    scanAll fs = some (rs, iEnd) →
    2 ≤ (rs.filter (fun r => decide (r.clean = X))).length →
    ((jsObject (exportEntries rs)).countP (fun kv => decide (kv.1 = X)) = 1)
    ∧ lookupKV (jsObject (exportEntries rs)) X
      = ((rs.filter (fun r => decide (r.clean = X))).getLast?).map (fun r => importPath r) := by
  intro fs rs iEnd X _h hlen
  have hne : rs.filter (fun r => decide (r.clean = X)) ≠ [] := by
    intro hnil
    rw [hnil] at hlen
    simp at hlen
  obtain ⟨r0, hr0⟩ := List.exists_mem_of_ne_nil _ hne
  have hr0' := List.mem_filter.mp hr0
  have hr0clean : r0.clean = X := by simpa using hr0'.2
  have hfilter : (exportEntries rs).filter (fun kv => decide (kv.1 = X))
      = (rs.filter (fun r => decide (r.clean = X))).map (fun r => (r.clean, importPath r)) := by
    unfold exportEntries
    rw [List.filter_map]
    rfl
  constructor
  · have hkeys : ((jsObject (exportEntries rs)).map Prod.fst).Nodup :=
      nodup_keys_foldl_insert _ [] (by simp)
    have hmem : X ∈ (jsObject (exportEntries rs)).map Prod.fst := by
      unfold jsObject
      rw [mem_keys_foldl_insert]
      right
      unfold exportEntries
      rw [List.map_map]
      exact List.mem_map.mpr ⟨r0, hr0'.1, hr0clean⟩
    have hc : (jsObject (exportEntries rs)).countP (fun kv => decide (kv.1 = X))
        = ((jsObject (exportEntries rs)).map Prod.fst).countP (fun a => decide (a = X)) := by
      rw [List.countP_map]
      rfl
    rw [hc]
    exact countP_eq_one_of_nodup_mem _ X hkeys hmem
  · rw [lookupKV_jsObject, hfilter, List.getLast?_map]
    cases hg : (rs.filter (fun r => decide (r.clean = X))).getLast? with
    | none => simp
    | some r1 => simp

/-- The colliding filesystem of the C5 witness: `x.a` and `x.b` both derive
to display name `X`. -/
def fsC5 : FSModel :=
  ⟨⟨true, [⟨("x.a".data), true, false⟩, ⟨("x.b".data), true, false⟩]⟩, ⟨false, []⟩⟩

/-- The records `scanAll fsC5` discovers. -/
def rsC5 : List NativeRecord :=
  [⟨("plugins".data), ("x.a".data), ("X".data), 0⟩,
   ⟨("plugins".data), ("x.b".data), ("X".data), 1⟩]

/-- Witness for C5 at the collision `x.a` / `x.b`. -/
theorem claim5_witness :
    ((jsObject (exportEntries rsC5)).countP (fun kv => decide (kv.1 = ("X".data))) = 1)
    ∧ lookupKV (jsObject (exportEntries rsC5)) ("X".data)
      = ((rsC5.filter (fun r => decide (r.clean = ("X".data)))).getLast?).map
          (fun r => importPath r) :=
  claim5 fsC5 rsC5 2 ("X".data) (by decide) (by decide)

/-! ## Properties of the whole run -/

theorem all_ok_any_failed (bs : List BuildOutcome) (h : bs.all (· == .ok) = true) :
    bs.any (· == .failed) = false := by
  induction bs with
  | nil => rfl
  | cons b t ih =>
    rw [List.all_cons] at h
    rw [List.any_cons]
    rw [Bool.and_eq_true] at h
    cases b with
    | ok =>
      rw [ih h.2]
      decide
    | failed => exact absurd h.1 (by decide)

theorem jsIndexOfFrom_of_not_infix (pat : List Char) :
    ∀ (s : List Char) (i : Nat), ¬ List.IsInfix pat s → jsIndexOfFrom pat s i = -1 := by
  intro s
  induction s with
  | nil =>
    intro i h
    cases pat with
    | nil => exact absurd List.nil_infix h
    | cons p ps =>
      rw [jsIndexOfFrom, if_neg (by simp)]
  | cons c t ih =>
    intro i h
    have hp : ¬ List.isPrefixOf pat (c :: t) = true := by
      intro hpre
      exact h (List.isPrefixOf_iff_prefix.mp hpre).isInfix
    rw [jsIndexOfFrom, if_neg hp]
    exact ih (i + 1) (fun hinf => h (List.infix_cons hinf))

theorem jsIndexOf_of_not_infix (s pat : List Char) (h : ¬ List.IsInfix pat s) :
    jsIndexOf s pat = -1 :=
  jsIndexOfFrom_of_not_infix pat s 0 h

theorem drop_length_sub_one :
    ∀ (c : List Char) (last : Char), c.getLast? = some last →
      c.drop (c.length - 1) = [last] := by
  intro c
  induction c with
  | nil =>
    intro last h
    simp at h
  | cons a t ih =>
    intro last h
    cases t with
    | nil =>
      simp only [List.getLast?_singleton, Option.some.injEq] at h
      subst h
      rfl
    | cons b t2 =>
      rw [List.getLast?_cons_cons] at h
      have := ih last h
      simpa using this

theorem jsSliceFrom_neg_one (c : List Char) (last : Char) (h : c.getLast? = some last) :
    jsSliceFrom c (-1) = [last] := by
  have hne : c ≠ [] := by
    intro hnil
    rw [hnil] at h
    simp at h
  have hlen : 1 ≤ c.length := List.length_pos.mpr hne
  have hb : (if (-1 : Int) < 0 then max ((c.length : Int) + -1) 0 else min (-1) (c.length : Int)).toNat
      = c.length - 1 := by
    rw [if_pos (by omega)]
    omega
  have hdef : jsSliceFrom c (-1)
      = c.drop ((if (-1 : Int) < 0 then max ((c.length : Int) + -1) 0
          else min (-1) (c.length : Int)).toNat) := rfl
  rw [hdef, hb]
  exact drop_length_sub_one c last h

/-- C1 (amended): when the six build tasks succeed, only a missing artifact
file is caught and logged as a warning with exit status 0; a release-fetch
failure is *not* caught — the process crashes with exit status 1 before the
rewrite, leaving the artifact unchanged and unlogged; and with the fetch
succeeding and the artifact present the step never fails at all (the artifact
is rewritten, even when the marker is absent). -/
theorem claim1 : ∀ inp : ScriptInput,
    inp.builds.length = 6 → inp.builds.all (· == .ok) = true →
    (latestHash inp.fetch = .error () →
      (runScript inp).exitCode = 1 ∧ (runScript inp).crashed = true
      ∧ (runScript inp).rendererAfter = inp.renderer ∧ (runScript inp).warned = false)
    ∧ (∀ h, latestHash inp.fetch = .ok h → inp.renderer = none →
      (runScript inp).exitCode = 0 ∧ (runScript inp).warned = true
      ∧ (runScript inp).rendererAfter = none)
    ∧ (∀ h c, latestHash inp.fetch = .ok h → inp.renderer = some c →
      (runScript inp).exitCode = 0 ∧ (runScript inp).warned = false
      ∧ (runScript inp).rendererAfter
          = some (bannerOf h ++ jsSliceFrom c (jsIndexOf c markerStr))) := by
  intro inp _h6 hall
  have hfail := all_ok_any_failed inp.builds hall
  refine ⟨?_, ?_, ?_⟩
  · intro herr
    simp [runScript, herr, hfail]
  · intro h hok hren
    simp [runScript, hok, hren, hfail]
  · intro h c hok hren
    simp [runScript, hok, hren, hfail]

/-- The C1 counterexample input: all six builds succeed, watch off, the
release fetch fails, the artifact exists. -/
def inpC1x : ScriptInput :=
  ⟨[.ok, .ok, .ok, .ok, .ok, .ok], false, .netError, some ("old".data)⟩

/-- C1, counterexample: on a run where the six build tasks succeed and the
post-processing fetch fails, the failure is not downgraded to a warning and
the exit status is 1, not 0 — the fetch is awaited outside the `try`/`catch`. -/
theorem claim1_counterexample :
    inpC1x.builds.length = 6 ∧ inpC1x.builds.all (· == .ok) = true
    ∧ latestHash inpC1x.fetch = .error ()
    ∧ ¬((runScript inpC1x).exitCode = 0 ∧ (runScript inpC1x).warned = true) :=
  ⟨by decide, by decide, rfl, by decide⟩

/-- The C1 witness input: builds succeed, fetch succeeds (empty feed), the
artifact file is missing. -/
def inpC1w : ScriptInput :=
  ⟨[.ok, .ok, .ok, .ok, .ok, .ok], false, .ok [], none⟩

/-- Witness for C1: the caught, warning-logged branch at a concrete input. -/
theorem claim1_witness :
    (runScript inpC1w).exitCode = 0 ∧ (runScript inpC1w).warned = true
    ∧ (runScript inpC1w).rendererAfter = none :=
  (claim1 inpC1w (by decide) (by decide)).2.1 none rfl rfl

/-- C2 (amended): the exit status is 0 when all six build tasks succeed and
the release-fetch step does not throw; 0 when a build task fails while watch
mode is enabled and the fetch step does not throw; and nonzero when any build
task fails while watch mode is disabled. -/
theorem claim2 : ∀ (inp : ScriptInput) (h : Option (List Char)),
    inp.builds.length = 6 →
    ((inp.builds.all (· == .ok) = true → latestHash inp.fetch = .ok h →
        (runScript inp).exitCode = 0)
    ∧ (inp.builds.any (· == .failed) = true → inp.watch = true →
        latestHash inp.fetch = .ok h → (runScript inp).exitCode = 0)
    ∧ (inp.builds.any (· == .failed) = true → inp.watch = false →
        (runScript inp).exitCode ≠ 0)) := by
  intro inp h _h6
  refine ⟨?_, ?_, ?_⟩
  · intro hall hok
    have hfail := all_ok_any_failed inp.builds hall
    cases hren : inp.renderer with
    | none => simp [runScript, hok, hren, hfail]
    | some c => simp [runScript, hok, hren, hfail]
  · intro hany hwatch hok
    cases hren : inp.renderer with
    | none => simp [runScript, hok, hren, hany, hwatch]
    | some c => simp [runScript, hok, hren, hany, hwatch]
  · intro hany hwatch
    cases hok : latestHash inp.fetch with
    | error e => simp [runScript, hok]
    | ok hh =>
      cases hren : inp.renderer with
      | none => simp [runScript, hok, hren, hany, hwatch]
      | some c => simp [runScript, hok, hren, hany, hwatch]

/-- The C2 counterexample input: all six builds succeed, but the release
fetch fails. -/
def inpC2x : ScriptInput :=
  ⟨[.ok, .ok, .ok, .ok, .ok, .ok], true, .netError, none⟩

/-- C2, counterexample: all six build tasks succeed and yet the exit status
is nonzero, because the uncaught release-fetch rejection fails the run. -/
theorem claim2_counterexample :
    inpC2x.builds.length = 6 ∧ inpC2x.builds.all (· == .ok) = true
    ∧ (runScript inpC2x).exitCode ≠ 0 := by
  decide

/-- Witness for C2: all three amended branches at concrete inputs. -/
theorem claim2_witness :
    (runScript ⟨[.ok, .ok, .ok, .ok, .ok, .ok], false, .ok [], some []⟩).exitCode = 0
    ∧ (runScript ⟨[.failed, .ok, .ok, .ok, .ok, .ok], true, .ok [], none⟩).exitCode = 0
    ∧ (runScript ⟨[.failed, .ok, .ok, .ok, .ok, .ok], false, .netError, none⟩).exitCode ≠ 0 :=
  ⟨(claim2 ⟨[.ok, .ok, .ok, .ok, .ok, .ok], false, .ok [], some []⟩ none (by decide)).1
      (by decide) rfl,
   (claim2 ⟨[.failed, .ok, .ok, .ok, .ok, .ok], true, .ok [], none⟩ none (by decide)).2.1
      (by decide) rfl rfl,
   (claim2 ⟨[.failed, .ok, .ok, .ok, .ok, .ok], false, .netError, none⟩ none (by decide)).2.2
      (by decide) rfl⟩

/-- C9: when the artifact exists but does not contain the marker
`"// Standalone:"`, the rewrite raises no error: the marker search returns
`-1`, `slice(-1)` keeps only the final character, and the artifact becomes the
two banner lines followed by that single character. -/
theorem claim9 : ∀ (inp : ScriptInput) (h : Option (List Char)) (c : List Char) (last : Char),
    latestHash inp.fetch = .ok h → inp.renderer = some c →
    ¬ List.IsInfix markerStr c → c.getLast? = some last →
    jsIndexOf c markerStr = -1
    ∧ (runScript inp).crashed = false ∧ (runScript inp).warned = false
    ∧ (runScript inp).rendererAfter = some (bannerOf h ++ [last]) := by
  intro inp h c last hok hren hinf hlast
  have hidx : jsIndexOf c markerStr = -1 := jsIndexOf_of_not_infix c markerStr hinf
  refine ⟨hidx, ?_, ?_, ?_⟩ <;>
    simp [runScript, hok, hren, hidx, jsSliceFrom_neg_one c last hlast]

/-- Witness for C9 at artifact contents `"abc"`. -/
theorem claim9_witness :
    jsIndexOf ("abc".data) markerStr = -1
    ∧ (runScript ⟨[.ok, .ok, .ok, .ok, .ok, .ok], false, .ok [], some ("abc".data)⟩).crashed = false
    ∧ (runScript ⟨[.ok, .ok, .ok, .ok, .ok, .ok], false, .ok [], some ("abc".data)⟩).warned = false
    ∧ (runScript ⟨[.ok, .ok, .ok, .ok, .ok, .ok], false, .ok [], some ("abc".data)⟩).rendererAfter
        = some (bannerOf none ++ ['c']) :=
  claim9 ⟨[.ok, .ok, .ok, .ok, .ok, .ok], false, .ok [], some ("abc".data)⟩ none
    ("abc".data) 'c' rfl rfl (by decide) (by decide)

/-- C10: when the release feed returns an empty JSON array, the optional
chaining makes `LATEST_HASH` the value `undefined`, nothing throws, and the
rewritten banner embeds the literal text `undefined` where the version tag
would go. -/
theorem claim10 : ∀ (inp : ScriptInput) (c : List Char),
    inp.fetch = .ok [] → inp.renderer = some c →
    latestHash inp.fetch = .ok none
    ∧ (runScript inp).crashed = false ∧ (runScript inp).warned = false
    ∧ (runScript inp).rendererAfter
        = some (("// PAYLOAD\n// Vencord undefined\n".data)
            ++ jsSliceFrom c (jsIndexOf c markerStr)) := by
  intro inp c hf hren
  have hok : latestHash inp.fetch = .ok none := by
    rw [hf]
    rfl
  have hban : bannerOf none = ("// PAYLOAD\n// Vencord undefined\n".data) := by decide
  refine ⟨hok, ?_, ?_, ?_⟩ <;> simp [runScript, hok, hren, hban]

/-- Witness for C10 at artifact contents `"xyz"`. -/
theorem claim10_witness :
    latestHash (ScriptInput.fetch ⟨[.ok, .ok, .ok, .ok, .ok, .ok], false, .ok [], some ("xyz".data)⟩) = .ok none
    ∧ (runScript ⟨[.ok, .ok, .ok, .ok, .ok, .ok], false, .ok [], some ("xyz".data)⟩).crashed = false
    ∧ (runScript ⟨[.ok, .ok, .ok, .ok, .ok, .ok], false, .ok [], some ("xyz".data)⟩).warned = false
    ∧ (runScript ⟨[.ok, .ok, .ok, .ok, .ok, .ok], false, .ok [], some ("xyz".data)⟩).rendererAfter
        = some (("// PAYLOAD\n// Vencord undefined\n".data)
            ++ jsSliceFrom ("xyz".data) (jsIndexOf ("xyz".data) markerStr)) :=
  claim10 ⟨[.ok, .ok, .ok, .ok, .ok, .ok], false, .ok [], some ("xyz".data)⟩ ("xyz".data)
    rfl rfl
